import Mathlib

/-!
Verification of the docXML package/serialization engine against its
specification.  The TypeScript managers (`ImageManager`, `NumberingManager`,
`CommentManager`, `TableOfContents`) are shallowly embedded: each TS `Map`
becomes an insertion-ordered association list, in-place mutation becomes
explicit state passing, and `throw` becomes `Except`.
-/

namespace DocXML

/-- Insertion-ordered association list lookup, mirroring `Map.get`. -/
def mapGet {K V : Type} [DecidableEq K] (m : List (K × V)) (k : K) : Option V :=
  (m.find? (fun p => p.1 = k)).map (·.2)

/-- Insertion-ordered association list update, mirroring `Map.set`:
replaces the value in place when the key exists, appends otherwise. -/
def mapSet {K V : Type} [DecidableEq K] (m : List (K × V)) (k : K) (v : V) :
    List (K × V) :=
  if m.any (fun p => p.1 = k) then
    m.map (fun p => if p.1 = k then (k, v) else p)
  else
    m ++ [(k, v)]

/-- Association list deletion, mirroring `Map.delete` (with unique keys the
filter removes exactly the one binding). -/
def mapDelete {K V : Type} [DecidableEq K] (m : List (K × V)) (k : K) :
    List (K × V) :=
  m.filter (fun p => p.1 ≠ k)

/-- Membership test, mirroring `Map.has`. -/
def mapHas {K V : Type} [DecidableEq K] (m : List (K × V)) (k : K) : Bool :=
  m.any (fun p => p.1 = k)

/-! ## Images (src/elements/ImageManager.ts) -/

/-- Modelled from the spec: the `Image` class is outside the provided core
sources (only `ImageManager` consumes it).  An image owns lazily loaded
bytes (`dataLen` is the byte length when loaded, `none` when
`getImageData` would throw a "not loaded" error), a file extension, and an
object identity `imgId` standing for the JS reference used as `Map` key.
`loadFails` records whether `ensureDataLoaded` would reject during bulk
load. -/
structure Image where
  imgId : Nat
  dataLen : Option Nat
  extension : String
  loadFails : Bool
deriving DecidableEq, Repr

/-- Modelled from the spec: `Image.getImageData` returns the loaded bytes
(here: their length) or throws an error whose message contains
"not loaded". -/
def Image.getImageData (img : Image) : Except Unit Nat :=
  match img.dataLen with
  | some len => .ok len
  | none => .error ()

/-- Image file entry (`ImageEntry` in ImageManager.ts). -/
structure ImageEntry where
  image : Image
  filename : String
  relationshipId : String
  docPrId : Nat
deriving DecidableEq, Repr

/-- The error thrown by `registerImage`, with the numeric interpolations of
the source message abstracted to the quantities they print. -/
inductive RegisterError where
  | countExceeded (maxCount : Nat)
  | singleSizeExceeded (sizeBytes maxBytes : Nat)
  | totalSizeExceeded (newTotalBytes maxBytes : Nat)
deriving DecidableEq, Repr

/-- The remediation bullet list carried by each capacity error message in
`registerImage` ("Consider: ..."). -/
def RegisterError.remediation : RegisterError → List String
  | .countExceeded _ =>
      ["Reducing the number of images",
       "Increasing maxImageCount in DocumentOptions",
       "Splitting into multiple documents"]
  | .singleSizeExceeded _ _ =>
      ["Compressing the image",
       "Resizing to lower resolution",
       "Converting to a more efficient format (e.g., JPEG)",
       "Increasing maxSingleImageSizeMB in DocumentOptions"]
  | .totalSizeExceeded _ _ =>
      ["Compressing existing images",
       "Removing unnecessary images",
       "Increasing maxTotalImageSizeMB in DocumentOptions",
       "Splitting into multiple documents"]

/-- State of `ImageManager`: images keyed by object identity, the Issue #12
index keyed by relationship id, the filename/docPr counters, and the three
configured quotas (in bytes). -/
structure ImageManager where
  images : List (Nat × ImageEntry)
  imagesByRelId : List (String × ImageEntry)
  nextImageNumber : Nat
  nextDocPrId : Nat
  maxImageCount : Nat
  maxTotalImageSizeBytes : Nat
  maxSingleImageSizeBytes : Nat
deriving DecidableEq, Repr

/-- `new ImageManager(options)` with all options defaulted
(maxImageCount 20, maxTotalImageSizeMB 100, maxSingleImageSizeMB 20). -/
def ImageManager.new : ImageManager :=
  { images := []
    imagesByRelId := []
    nextImageNumber := 1
    nextDocPrId := 1
    maxImageCount := 20
    maxTotalImageSizeBytes := 100 * 1024 * 1024
    maxSingleImageSizeBytes := 20 * 1024 * 1024 }

/-- `ImageManager.getImageCount`: `this.images.size`. -/
def ImageManager.getImageCount (m : ImageManager) : Nat :=
  m.images.length

/-- `ImageManager.getTotalSize`: sums the byte length of every entry whose
image data is currently loaded, skipping unloaded images. -/
def ImageManager.getTotalSize (m : ImageManager) : Nat :=
  m.images.foldl
    (fun acc p =>
      match p.2.image.getImageData with
      | .ok len => acc + len
      | .error _ => acc)
    0

/-- `ImageManager.registerImage(image, relationshipId)`.  Returns the
assigned filename and the post-state; a thrown quota error leaves the
state unchanged.  Checks, in source order: the relationship-id index
(Issue #12 reuse), the object-identity index, the image-count quota, then
— only when the image data is loaded — the single-image and total-size
quotas, and finally mints `image<N>.<ext>` and records the entry in both
maps. -/
def ImageManager.registerImage (m : ImageManager) (image : Image)
    (relationshipId : String) : Except RegisterError String × ImageManager :=
  match mapGet m.imagesByRelId relationshipId with
  | some existingByRelId =>
      (.ok existingByRelId.filename,
       { m with images := mapSet m.images image.imgId existingByRelId })
  | none =>
    match mapGet m.images image.imgId with
    | some existing => (.ok existing.filename, m)
    | none =>
      if m.images.length ≥ m.maxImageCount then
        (.error (.countExceeded m.maxImageCount), m)
      else
        let sizeCheck : Except RegisterError Unit :=
          match image.getImageData with
          | .error _ => .ok ()  -- "not loaded" is swallowed by the catch
          | .ok len =>
            if len > m.maxSingleImageSizeBytes then
              .error (.singleSizeExceeded len m.maxSingleImageSizeBytes)
            else
              let newTotalSize := m.getTotalSize + len
              if newTotalSize > m.maxTotalImageSizeBytes then
                .error (.totalSizeExceeded newTotalSize m.maxTotalImageSizeBytes)
              else
                .ok ()
        match sizeCheck with
        | .error e => (.error e, m)
        | .ok _ =>
          let filename := "image" ++ toString m.nextImageNumber ++ "." ++ image.extension
          let docPrId := m.nextDocPrId
          let entry : ImageEntry :=
            { image := image
              filename := filename
              relationshipId := relationshipId
              docPrId := docPrId }
          (.ok filename,
           { m with
              images := mapSet m.images image.imgId entry
              imagesByRelId := mapSet m.imagesByRelId relationshipId entry
              nextImageNumber := m.nextImageNumber + 1
              nextDocPrId := m.nextDocPrId + 1 })

/-- One asset inside a bulk-load batch: the load is awaited; on success the
processed counter advances and progress is reported, and on failure the
error is caught and logged and the counter still advances and is reported.
The state is the `loaded` counter paired with the list of
`(loaded, total)` progress-callback invocations so far. -/
def processEntry (total : Nat) (st : Nat × List (Nat × Nat)) (e : ImageEntry) :
    Nat × List (Nat × Nat) :=
  if e.image.loadFails then
    -- catch branch: warning logged, still counted as processed
    (st.1 + 1, st.2 ++ [(st.1 + 1, total)])
  else
    (st.1 + 1, st.2 ++ [(st.1 + 1, total)])

/-- The batching loop of `loadAllImageData`: starting at index `i`, take a
batch of at most `concurrency` entries, process it, and continue at
`i + concurrency` while `i < total`.  `fuel` bounds the iteration count
(`total` iterations always suffice once `concurrency ≥ 1`). -/
def loadLoop (entries : List ImageEntry) (concurrency total : Nat) :
    Nat → Nat → Nat × List (Nat × Nat) → Nat × List (Nat × Nat)
  | 0, _, st => st
  | fuel + 1, i, st =>
    if i < total then
      loadLoop entries concurrency total fuel (i + concurrency)
        (((entries.drop i).take concurrency).foldl (processEntry total) st)
    else st

/-- `ImageManager.loadAllImageData(concurrency, onProgress)`, returning the
sequence of `(loaded, total)` progress-callback invocations.  An empty
image set returns immediately; otherwise a concurrency outside the
integer range `[1, 50]` is rejected; otherwise the images are loaded in
sequential batches of at most `concurrency`. -/
def ImageManager.loadAllImageData (m : ImageManager) (concurrency : Int) :
    Except String (List (Nat × Nat)) :=
  if (m.images.map (·.2)).length = 0 then
    .ok []
  else if concurrency < 1 ∨ concurrency > 50 then
    .error "Concurrency must be an integer between 1 and 50"
  else
    .ok (loadLoop (m.images.map (·.2)) concurrency.toNat
          (m.images.map (·.2)).length (m.images.map (·.2)).length 0 (0, [])).2

/-! ## Numbering (src/formatting/NumberingManager.ts) -/

/-- Modelled from the spec: the `NumberingLevel` class is outside the
provided core sources.  A level owns its index (`0`–`8`), symbolic
format, template text, alignment, start value, left/hanging indents in
twips, optional font/size, suffix and legal-numbering flag. -/
structure NumberingLevel where
  level : Int
  format : String
  text : String
  alignment : String
  start : Int
  leftIndent : Int
  hangingIndent : Int
  font : Option String
  fontSize : Option Int
  suffix : String
  isLegalNumberingStyle : Bool
deriving DecidableEq, Repr

/-- Modelled from the spec: `NumberingLevel.setLeftIndent` rejects a
negative indent and otherwise overwrites the left indent. -/
def NumberingLevel.setLeftIndent (lv : NumberingLevel) (v : Int) :
    Except String NumberingLevel :=
  if v < 0 then .error "Left indent must be non-negative"
  else .ok { lv with leftIndent := v }

/-- Modelled from the spec: `NumberingLevel.setHangingIndent` rejects a
negative indent and otherwise overwrites the hanging indent. -/
def NumberingLevel.setHangingIndent (lv : NumberingLevel) (v : Int) :
    Except String NumberingLevel :=
  if v < 0 then .error "Hanging indent must be non-negative"
  else .ok { lv with hangingIndent := v }

/-- Modelled from the spec: an `AbstractNumbering` definition has an
integer id, an optional name, an optional multi-level type and its
ordered levels (`getAllLevels` returns them). -/
structure AbstractNumbering where
  abstractNumId : Int
  name : Option String
  multiLevelType : Option String
  levels : List NumberingLevel
deriving DecidableEq, Repr

/-- Modelled from the spec: a `NumberingInstance` binds `numId` to one
abstract definition id, with optional per-level start overrides. -/
structure NumberingInstance where
  numId : Int
  abstractNumId : Int
  levelOverrides : List (Int × Int)
deriving DecidableEq, Repr

/-- State of `NumberingManager`: the definition and instance maps plus the
two monotonic id counters. -/
structure NumberingManager where
  abstractNumberings : List (Int × AbstractNumbering)
  instances : List (Int × NumberingInstance)
  nextAbstractNumId : Int
  nextNumId : Int
deriving DecidableEq, Repr

/-- `new NumberingManager(false)`. -/
def NumberingManager.new : NumberingManager :=
  { abstractNumberings := []
    instances := []
    nextAbstractNumId := 0
    nextNumId := 1 }

/-- `NumberingManager.hasAbstractNumbering`. -/
def NumberingManager.hasAbstractNumbering (m : NumberingManager)
    (abstractNumId : Int) : Bool :=
  mapHas m.abstractNumberings abstractNumId

/-- `NumberingManager.getAbstractNumbering`. -/
def NumberingManager.getAbstractNumbering (m : NumberingManager)
    (abstractNumId : Int) : Option AbstractNumbering :=
  mapGet m.abstractNumberings abstractNumId

/-- `NumberingManager.getInstance`. -/
def NumberingManager.getInstance (m : NumberingManager) (numId : Int) :
    Option NumberingInstance :=
  mapGet m.instances numId

/-- `NumberingManager.addAbstractNumbering`: stores the definition under
its id and bumps `nextAbstractNumId` past it when necessary. -/
def NumberingManager.addAbstractNumbering (m : NumberingManager)
    (a : AbstractNumbering) : NumberingManager :=
  { m with
      abstractNumberings := mapSet m.abstractNumberings a.abstractNumId a
      nextAbstractNumId :=
        if a.abstractNumId ≥ m.nextAbstractNumId then a.abstractNumId + 1
        else m.nextAbstractNumId }

/-- `NumberingManager.removeAbstractNumbering`: first collects and deletes
every instance referencing the definition, then deletes the definition,
returning whether it was present. -/
def NumberingManager.removeAbstractNumbering (m : NumberingManager)
    (abstractNumId : Int) : Bool × NumberingManager :=
  let instancesToRemove :=
    (m.instances.filter (fun p => p.2.abstractNumId = abstractNumId)).map (·.1)
  let instances' := instancesToRemove.foldl mapDelete m.instances
  let removed := mapHas m.abstractNumberings abstractNumId
  (removed,
   { m with
      instances := instances'
      abstractNumberings := mapDelete m.abstractNumberings abstractNumId })

/-- `NumberingManager.addInstance`: verifies that the referenced abstract
definition exists (throwing otherwise), stores the instance under its
`numId` and bumps `nextNumId` past it when necessary. -/
def NumberingManager.addInstance (m : NumberingManager)
    (inst : NumberingInstance) : Except String NumberingManager :=
  if ¬ m.hasAbstractNumbering inst.abstractNumId then
    .error ("Abstract numbering " ++ toString inst.abstractNumId ++ " does not exist")
  else
    .ok { m with
            instances := mapSet m.instances inst.numId inst
            nextNumId :=
              if inst.numId ≥ m.nextNumId then inst.numId + 1 else m.nextNumId }

/-- `NumberingManager.getStandardIndentation`: rejects a level outside
`[0, 8]` and otherwise returns
`(leftIndent, hangingIndent) = (720 * (level + 1), 360)` twips. -/
def NumberingManager.getStandardIndentation (level : Int) :
    Except String (Int × Int) :=
  if level < 0 ∨ level > 8 then
    .error ("Invalid level " ++ toString level ++ ". Level must be between 0 and 8.")
  else
    .ok (720 * (level + 1), 360)

/-- The per-level body of `normalizeListIndentation`: apply the standard
indentation to every level in order, propagating any thrown error. -/
def normalizeLevels : List NumberingLevel → Except String (List NumberingLevel)
  | [] => .ok []
  | lv :: rest =>
    match NumberingManager.getStandardIndentation lv.level with
    | .error e => .error e
    | .ok std =>
      match lv.setLeftIndent std.1 with
      | .error e => .error e
      | .ok lv1 =>
        match lv1.setHangingIndent std.2 with
        | .error e => .error e
        | .ok lv2 =>
          match normalizeLevels rest with
          | .error e => .error e
          | .ok rest' => .ok (lv2 :: rest')

/-- `NumberingManager.normalizeListIndentation(numId)`: returns `false`
(leaving the state alone) when the instance or its abstract definition is
missing, and otherwise rewrites every level of the referenced abstract
definition to the standard indentation and returns `true`. -/
def NumberingManager.normalizeListIndentation (m : NumberingManager)
    (numId : Int) : Except String (Bool × NumberingManager) :=
  match m.getInstance numId with
  | none => .ok (false, m)
  | some inst =>
    match m.getAbstractNumbering inst.abstractNumId with
    | none => .ok (false, m)
    | some abstractNum =>
      match normalizeLevels abstractNum.levels with
      | .error e => .error e
      | .ok levels' =>
        .ok (true,
          { m with
              abstractNumberings :=
                mapSet m.abstractNumberings inst.abstractNumId
                  { abstractNum with levels := levels' } })

/-- The removal counts returned by `cleanupUnusedNumbering`. -/
structure CleanupCounts where
  instancesRemoved : Nat
  abstractsRemoved : Nat
deriving DecidableEq, Repr

/-- `NumberingManager.cleanupUnusedNumbering(usedNumIds)`: phase 1 collects
and deletes the instances whose `numId` is not in the used set, phase 2
recomputes the abstract ids referenced by the surviving instances, phase 3
collects and deletes the unreferenced abstract definitions; the counts of
deleted instances and definitions are returned. -/
def NumberingManager.cleanupUnusedNumbering (m : NumberingManager)
    (usedNumIds : List Int) : CleanupCounts × NumberingManager :=
  let instancesToRemove :=
    (m.instances.filter (fun p => ¬ usedNumIds.contains p.1)).map (·.1)
  let instances' := instancesToRemove.foldl mapDelete m.instances
  let instancesRemoved := instancesToRemove.length
  let referencedAbstractNumIds := instances'.map (fun p => p.2.abstractNumId)
  let abstractsToRemove :=
    (m.abstractNumberings.filter
      (fun p => ¬ referencedAbstractNumIds.contains p.1)).map (·.1)
  let abstracts' := abstractsToRemove.foldl mapDelete m.abstractNumberings
  let abstractsRemoved := abstractsToRemove.length
  (⟨instancesRemoved, abstractsRemoved⟩,
   { m with instances := instances', abstractNumberings := abstracts' })

/-! ## Comments (src/elements/CommentManager.ts) -/

/-- Modelled from the spec: the `Comment` class is outside the provided
core sources.  A comment entry has an integer id (assigned by the
manager), author, initials, timestamp, ordered run content (here: the
runs' texts) and an optional parent id; `isReply()` is the presence of a
parent id. -/
structure Comment where
  id : Int
  author : String
  initials : String
  date : Int
  runs : List String
  parentId : Option Int
deriving DecidableEq, Repr

/-- `Comment.isReply`. -/
def Comment.isReply (c : Comment) : Bool :=
  c.parentId.isSome

/-- Modelled from the spec: `Comment.createReply(parentCommentId, author,
content, initials)` builds an as-yet-unregistered comment declaring the
given parent (creation timestamp abstracted to `0`; the id placeholder is
overwritten by `register`). -/
def Comment.createReply (parentCommentId : Int) (author : String)
    (content : List String) (initials : String) : Comment :=
  { id := -1
    author := author
    initials := initials
    date := 0
    runs := content
    parentId := some parentCommentId }

/-- Comment entry stored by the manager: the comment plus its replies. -/
structure CommentEntry where
  comment : Comment
  replies : List Comment
deriving DecidableEq, Repr

/-- State of `CommentManager`: comments keyed by id, plus the monotonic
next-id counter. -/
structure CommentManager where
  comments : List (Int × CommentEntry)
  nextId : Int
deriving DecidableEq, Repr

/-- `new CommentManager()`. -/
def CommentManager.new : CommentManager :=
  { comments := [], nextId := 0 }

/-- `CommentManager.register(comment)`: assigns the next id, stores the
comment with an empty reply list, and — when the comment declares a
parent — appends it to the parent's reply list when the parent is found
(a lookup miss silently skips threading). -/
def CommentManager.register (m : CommentManager) (c : Comment) :
    Comment × CommentManager :=
  let c' := { c with id := m.nextId }
  let m1 : CommentManager :=
    { comments := mapSet m.comments c'.id { comment := c', replies := [] }
      nextId := m.nextId + 1 }
  match c'.parentId with
  | some pid =>
    match mapGet m1.comments pid with
    | some parentEntry =>
        (c', { m1 with
                comments := mapSet m1.comments pid
                  { parentEntry with replies := parentEntry.replies ++ [c'] } })
    | none => (c', m1)
  | none => (c', m1)

/-- `CommentManager.createReply(parentCommentId, author, content,
initials)`: throws when the parent id is not registered, otherwise
creates the reply and registers it. -/
def CommentManager.createReply (m : CommentManager) (parentCommentId : Int)
    (author : String) (content : List String) (initials : String) :
    Except String Comment × CommentManager :=
  if ¬ mapHas m.comments parentCommentId then
    (.error ("Cannot create reply: parent comment with ID " ++
             toString parentCommentId ++ " does not exist"), m)
  else
    let (reply, m') :=
      m.register (Comment.createReply parentCommentId author content initials)
    (.ok reply, m')

/-- `CommentManager.removeComment(id)`: returns `false` (state unchanged)
for an unknown id; otherwise deletes every reply of the entry, then
deletes the id itself, returning whether that final delete found it. -/
def CommentManager.removeComment (m : CommentManager) (id : Int) :
    Bool × CommentManager :=
  match mapGet m.comments id with
  | none => (false, m)
  | some entry =>
    let comments1 := entry.replies.foldl (fun acc r => mapDelete acc r.id) m.comments
    let removed := mapHas comments1 id
    (removed, { m with comments := mapDelete comments1 id })

/-! ## Table of contents (src/elements/TableOfContents.ts) -/

/-- The XML element tree (`XMLElement` in XMLBuilder): a named node with
ordered attributes and ordered element-or-text children, or a text
child.  An absent `attributes`/`selfClosing` in the TS object literals is
the empty list / `false`. -/
inductive XMLNode where
  | elem (name : String) (attributes : List (String × String))
      (children : List XMLNode) (selfClosing : Bool)
  | text (s : String)
deriving Repr

/-- The TOC tab-leader union type `'dot' | 'hyphen' | 'underscore' |
'none'`. -/
inductive TabLeader where
  | dot
  | hyphen
  | underscore
  | noLeader
deriving DecidableEq, Repr

/-- The `leaderMap` of `buildFieldInstruction` (only consulted for
non-`dot` leaders). -/
def TabLeader.leaderChar : TabLeader → String
  | .dot => ""
  | .hyphen => "h"
  | .underscore => "u"
  | .noLeader => "n"

/-- The `TOCProperties` input interface: every field optional. -/
structure TOCProperties where
  title : Option String := none
  levels : Option Int := none
  includeStyles : Option (List String) := none
  showPageNumbers : Option Bool := none
  rightAlignPageNumbers : Option Bool := none
  useHyperlinks : Option Bool := none
  tabLeader : Option TabLeader := none
  fieldSwitches : Option String := none
  numbered : Option Bool := none
  numberingFormat : Option String := none
  noIndent : Option Bool := none
  customIndents : Option (List Int) := none
  spaceBetweenEntries : Option Int := none
  hyperlinkColor : Option String := none
deriving Repr

/-- State of a `TableOfContents`. -/
structure TableOfContents where
  title : String
  levels : Int
  includeStyles : Option (List String)
  showPageNumbers : Bool
  useHyperlinks : Bool
  tabLeader : TabLeader
  fieldSwitches : Option String
  numbered : Bool
  numberingFormat : String
  noIndent : Bool
  customIndents : Option (List Int)
  spaceBetweenEntries : Int
  hyperlinkColor : String
deriving Repr

/-- JS `a || d` for an optional string: an absent or empty (falsy) value
yields the default. -/
def orDefaultStr (v : Option String) (d : String) : String :=
  match v with
  | none => d
  | some s => if s = "" then d else s

/-- JS `a || d` for an optional number: an absent or zero (falsy) value
yields the default. -/
def orDefaultInt (v : Option Int) (d : Int) : Int :=
  match v with
  | none => d
  | some n => if n = 0 then d else n

/-- `new TableOfContents(properties)`: the constructor applies JS falsy
defaulting (`||`) to each field — no range validation anywhere. -/
def TableOfContents.new (properties : TOCProperties) : TableOfContents :=
  { title := orDefaultStr properties.title "Table of Contents"
    levels := orDefaultInt properties.levels 3
    includeStyles := properties.includeStyles
    showPageNumbers := properties.showPageNumbers ≠ some false
    useHyperlinks := properties.useHyperlinks.getD false
    tabLeader := properties.tabLeader.getD .dot
    fieldSwitches := properties.fieldSwitches
    numbered := properties.numbered.getD false
    numberingFormat := orDefaultStr properties.numberingFormat "decimal"
    noIndent := properties.noIndent.getD false
    customIndents := properties.customIndents
    spaceBetweenEntries := properties.spaceBetweenEntries.getD 0
    hyperlinkColor := orDefaultStr properties.hyperlinkColor "0000FF" }

/-- `TableOfContents.setLevels(levels)`: the only levels mutator that
validates, rejecting values outside `[1, 9]`. -/
def TableOfContents.setLevels (t : TableOfContents) (levels : Int) :
    Except String TableOfContents :=
  if levels < 1 ∨ levels > 9 then
    .error "TOC levels must be between 1 and 9"
  else
    .ok { t with levels := levels }

/-- `TableOfContents.configure(options)`: overwrites exactly the fields
present in `options`, with no validation and no falsy coercion. -/
def TableOfContents.configure (t : TableOfContents) (options : TOCProperties) :
    TableOfContents :=
  { title := options.title.getD t.title
    levels := options.levels.getD t.levels
    includeStyles :=
      match options.includeStyles with
      | some v => some v
      | none => t.includeStyles
    showPageNumbers := options.showPageNumbers.getD t.showPageNumbers
    useHyperlinks := options.useHyperlinks.getD t.useHyperlinks
    tabLeader := options.tabLeader.getD t.tabLeader
    fieldSwitches :=
      match options.fieldSwitches with
      | some v => some v
      | none => t.fieldSwitches
    numbered := options.numbered.getD t.numbered
    numberingFormat := options.numberingFormat.getD t.numberingFormat
    noIndent := options.noIndent.getD t.noIndent
    customIndents :=
      match options.customIndents with
      | some v => some v
      | none => t.customIndents
    spaceBetweenEntries := options.spaceBetweenEntries.getD t.spaceBetweenEntries
    hyperlinkColor := options.hyperlinkColor.getD t.hyperlinkColor }

/-- `TableOfContents.buildFieldInstruction()`: `TOC`, then either the
`\t` style list or the `\o "1-<levels>"` heading range, then the `\h`,
`\n`, `\p` switches as configured, any custom switches, and the closing
`\* MERGEFORMAT`. -/
def TableOfContents.buildFieldInstruction (t : TableOfContents) : String :=
  let instruction := "TOC"
  let instruction :=
    match t.includeStyles with
    | some styles =>
      if styles.length > 0 then
        instruction ++ " \\t " ++
          String.intercalate " " (styles.map (fun s => "\"" ++ s ++ "\",1"))
      else
        instruction ++ " \\o \"1-" ++ toString t.levels ++ "\""
    | none => instruction ++ " \\o \"1-" ++ toString t.levels ++ "\""
  let instruction := if t.useHyperlinks then instruction ++ " \\h" else instruction
  let instruction := if ¬ t.showPageNumbers then instruction ++ " \\n" else instruction
  let instruction :=
    if t.tabLeader ≠ .dot then
      instruction ++ " \\p \"" ++ t.tabLeader.leaderChar ++ "\""
    else instruction
  let instruction :=
    match t.fieldSwitches with
    | some fs => instruction ++ " " ++ fs
    | none => instruction
  instruction ++ " \\* MERGEFORMAT"

/-- The title paragraph emitted by `toXML` when the title is truthy. -/
def tocTitleParagraph (title : String) : XMLNode :=
  .elem "w:p" []
    [ .elem "w:pPr" []
        [ .elem "w:pStyle" [("w:val", "TOCHeading")] [] true ] false
    , .elem "w:r" []
        [ .elem "w:t" [] [.text title] false ] false ] false

/-- The five runs of the TOC complex-field paragraph, in source push
order: begin marker, instruction text, separate marker, cached result
placeholder, end marker. -/
def tocFieldChildren (t : TableOfContents) : List XMLNode :=
  [ .elem "w:r" []
      [ .elem "w:fldChar" [("w:fldCharType", "begin")] [] true ] false
  , .elem "w:r" []
      [ .elem "w:instrText" [("xml:space", "preserve")]
          [.text t.buildFieldInstruction] false ] false
  , .elem "w:r" []
      [ .elem "w:fldChar" [("w:fldCharType", "separate")] [] true ] false
  , .elem "w:r" []
      [ .elem "w:rPr" [] [ .elem "w:noProof" [] [] true ] false
      , .elem "w:t" [] [.text "Right-click to update field."] false ] false
  , .elem "w:r" []
      [ .elem "w:fldChar" [("w:fldCharType", "end")] [] true ] false ]

/-- `TableOfContents.toXML()`: the optional title paragraph followed by
the field paragraph; the complete 5-stage structure is validated before
the paragraph is returned, throwing when any stage is missing. -/
def TableOfContents.toXML (t : TableOfContents) : Except String (List XMLNode) :=
  let elements : List XMLNode :=
    if t.title ≠ "" then [tocTitleParagraph t.title] else []
  let children := tocFieldChildren t
  if children.length ≠ 5 then
    .error "CRITICAL: TOC field structure incomplete."
  else
    .ok (elements ++ [.elem "w:p" [] children false])

/-! ## Derived notions and concrete example states -/

/-- The standard-indentation rewrite applied by `normalizeListIndentation`
to one level: left indent `720 * (level + 1)`, hanging indent `360`. -/
def standardizeLevel (lv : NumberingLevel) : NumberingLevel :=
  { lv with leftIndent := 720 * (lv.level + 1), hangingIndent := 360 }

/-- The referential invariant of the numbering store: every registered
instance references an existing abstract definition. -/
def checkNumberingInv (m : NumberingManager) : Bool :=
  m.instances.all (fun p => mapHas m.abstractNumberings p.2.abstractNumId)

/-- The progress-callback sequence `[(1, n), (2, n), …, (n, n)]` reported
by a complete bulk load over `n` assets. -/
def progressSeq (n : Nat) : List (Nat × Nat) :=
  (List.range n).map (fun j => (j + 1, n))

/-- A loaded 100-byte png (example). -/
def exImgA : Image :=
  { imgId := 1, dataLen := some 100, extension := "png", loadFails := false }

/-- A distinct Image object (fresh identity), also loaded (example). -/
def exImgB : Image :=
  { imgId := 2, dataLen := some 100, extension := "png", loadFails := false }

/-- A 21 MB image, above the default 20 MB single-image quota (example). -/
def exImgBig : Image :=
  { imgId := 3, dataLen := some (21 * 1024 * 1024), extension := "png"
    loadFails := false }

/-- The manager state after registering `exImgA` under `rId1` (example). -/
def exMgr1 : ImageManager :=
  (ImageManager.new.registerImage exImgA "rId1").2

/-- An example manager holding 7 registered unloaded images, the one with
`imgId = 4` failing to load (the spec's bulk-load scenario). -/
def exMgr7 : ImageManager :=
  { ImageManager.new with
      images := (List.range 7).map (fun i =>
        (i, { image := { imgId := i, dataLen := none, extension := "png"
                         loadFails := i = 4 }
              filename := "image" ++ toString (i + 1) ++ ".png"
              relationshipId := "rId" ++ toString (i + 1)
              docPrId := i + 1 })) }

/-- An example numbering level at index `i` with deliberately non-standard
indents (prior arbitrary mutation). -/
def exLevel (i : Int) : NumberingLevel :=
  { level := i, format := "decimal", text := "%1.", alignment := "left"
    start := 1, leftIndent := 13, hangingIndent := 9999, font := none
    fontSize := none, suffix := "tab", isLegalNumberingStyle := false }

/-- An example abstract definition with two mutated levels (example). -/
def exAbstract : AbstractNumbering :=
  { abstractNumId := 0, name := none, multiLevelType := none
    levels := [exLevel 0, exLevel 1] }

/-- An example numbering manager: one abstract definition, one instance
`numId = 1` referencing it, one instance `numId = 2` referencing it. -/
def exNumMgr : NumberingManager :=
  { abstractNumberings := [(0, exAbstract)]
    instances :=
      [(1, { numId := 1, abstractNumId := 0, levelOverrides := [] }),
       (2, { numId := 2, abstractNumId := 0, levelOverrides := [] })]
    nextAbstractNumId := 1
    nextNumId := 3 }

/-- An example comment manager holding one registered top-level comment
(id `0`). -/
def exCommentMgr : CommentManager :=
  (CommentManager.new.register
    { id := -1, author := "alice", initials := "a", date := 5
      runs := ["hello"], parentId := none }).2

/-! ## Association-list lemmas -/

theorem mapGet_map_ne {K V : Type} [DecidableEq K] (l : List (K × V))
    (k k' : K) (v : V) (hk : k' ≠ k) :
    mapGet (l.map (fun p => if p.1 = k then (k, v) else p)) k' = mapGet l k' := by
  induction l with
  | nil => rfl
  | cons a tl ih =>
    by_cases hb : a.1 = k
    · simp only [mapGet, List.map_cons, if_pos hb, List.find?_cons] at *
      have h1 : (decide ((k, v).1 = k')) = false := by simp [Ne.symm hk]
      have h2 : (decide (a.1 = k')) = false := by
        simp; rw [hb]; exact Ne.symm hk
      rw [h1, h2]; exact ih
    · simp only [mapGet, List.map_cons, if_neg hb, List.find?_cons] at *
      by_cases hc : a.1 = k'
      · rw [decide_eq_true hc]
      · rw [decide_eq_false hc]; exact ih

theorem mapGet_map_self {K V : Type} [DecidableEq K] (l : List (K × V))
    (k : K) (v : V) (h : ∃ p ∈ l, p.1 = k) :
    mapGet (l.map (fun p => if p.1 = k then (k, v) else p)) k = some v := by
  induction l with
  | nil => obtain ⟨p, hp, _⟩ := h; simp at hp
  | cons a tl ih =>
    by_cases hb : a.1 = k
    · simp [mapGet, List.find?_cons, hb]
    · have h' : ∃ p ∈ tl, p.1 = k := by
        obtain ⟨p, hp, hpk⟩ := h
        rcases List.mem_cons.mp hp with rfl | h1
        · exact absurd hpk hb
        · exact ⟨p, h1, hpk⟩
      simp only [List.map_cons, if_neg hb, mapGet, List.find?_cons,
        decide_eq_false hb]
      exact ih h'

theorem mapGet_eq_none_of_not_has {K V : Type} [DecidableEq K]
    (l : List (K × V)) (k : K) (h : l.any (fun p => p.1 = k) = false) :
    mapGet l k = none := by
  unfold mapGet
  rw [List.find?_eq_none.mpr]
  · rfl
  · intro p hp
    simp only [List.any_eq_false, decide_eq_true_eq] at h
    simp only [decide_eq_true_eq]
    exact h p hp

theorem mapGet_mapSet_self {K V : Type} [DecidableEq K] (l : List (K × V))
    (k : K) (v : V) : mapGet (mapSet l k v) k = some v := by
  unfold mapSet
  by_cases h : l.any (fun p => p.1 = k) = true
  · rw [if_pos h]
    simp only [List.any_eq_true, decide_eq_true_eq] at h
    exact mapGet_map_self l k v h
  · rw [if_neg h]
    unfold mapGet
    rw [List.find?_append, List.find?_eq_none.mpr]
    · simp [List.find?_cons]
    · intro p hp
      simp only [List.any_eq_true, decide_eq_true_eq, not_exists] at h
      simp only [decide_eq_true_eq]
      exact fun hc => h p ⟨hp, hc⟩

theorem mapGet_mapSet_ne {K V : Type} [DecidableEq K] (l : List (K × V))
    (k k' : K) (v : V) (hk : k' ≠ k) :
    mapGet (mapSet l k v) k' = mapGet l k' := by
  unfold mapSet
  by_cases h : l.any (fun p => p.1 = k) = true
  · rw [if_pos h]; exact mapGet_map_ne l k k' v hk
  · rw [if_neg h]
    unfold mapGet
    rw [List.find?_append]
    have hs : List.find? (fun p => p.1 = k') [(k, v)] = none := by
      simp [List.find?_cons, Ne.symm hk]
    rw [hs]
    cases List.find? (fun p => p.1 = k') l <;> rfl

theorem length_mapSet_has {K V : Type} [DecidableEq K] (l : List (K × V))
    (k : K) (v : V) (h : l.any (fun p => p.1 = k) = true) :
    (mapSet l k v).length = l.length := by
  unfold mapSet; rw [if_pos h]; exact List.length_map _ _

theorem length_mapSet_not_has {K V : Type} [DecidableEq K] (l : List (K × V))
    (k : K) (v : V) (h : l.any (fun p => p.1 = k) = false) :
    (mapSet l k v).length = l.length + 1 := by
  unfold mapSet; rw [if_neg (by simp [h])]; simp

theorem mem_mapSet {K V : Type} [DecidableEq K] {l : List (K × V)}
    {k : K} {v : V} {p : K × V} (hp : p ∈ mapSet l k v) :
    p ∈ l ∨ p = (k, v) := by
  unfold mapSet at hp
  by_cases h : l.any (fun p => p.1 = k) = true
  · rw [if_pos h] at hp
    obtain ⟨q, hq, hqe⟩ := List.mem_map.mp hp
    by_cases hqk : q.1 = k
    · right; rw [if_pos hqk] at hqe; exact hqe.symm
    · left; rw [if_neg hqk] at hqe; exact hqe ▸ hq
  · rw [if_neg h] at hp
    rcases List.mem_append.mp hp with h1 | h1
    · exact Or.inl h1
    · exact Or.inr (List.mem_singleton.mp h1)

theorem foldl_mapDelete_eq_filter {K V : Type} [DecidableEq K]
    (ks : List K) (l : List (K × V)) :
    ks.foldl mapDelete l = l.filter (fun p => ¬ ks.contains p.1) := by
  induction ks generalizing l with
  | nil => simp
  | cons k ks ih =>
    simp only [List.foldl_cons]
    rw [ih]
    unfold mapDelete
    rw [List.filter_filter]
    apply List.filter_congr
    intro p _
    simp only [List.elem_iff, List.contains_cons]
    rw [Bool.and_comm]
    simp [List.elem_iff]


/-- C2: for every `TableOfContents`, `toXML` succeeds and the field
paragraph it emits has exactly 5 run children, in order: the begin field
marker, the instruction text, the separate field marker, the cached
result placeholder, and the end field marker.  Since `toXML` throws
before returning whenever the assembled field structure does not have all
5 stages, a field missing any stage is never emitted. -/
theorem toc_toXML_emits_five_stage_field (t : TableOfContents) :
    ∃ pre : List XMLNode,
      t.toXML = Except.ok (pre ++
        [XMLNode.elem "w:p" []
          [ XMLNode.elem "w:r" []
              [XMLNode.elem "w:fldChar" [("w:fldCharType", "begin")] [] true] false
          , XMLNode.elem "w:r" []
              [XMLNode.elem "w:instrText" [("xml:space", "preserve")]
                [XMLNode.text t.buildFieldInstruction] false] false
          , XMLNode.elem "w:r" []
              [XMLNode.elem "w:fldChar" [("w:fldCharType", "separate")] [] true] false
          , XMLNode.elem "w:r" []
              [ XMLNode.elem "w:rPr" [] [XMLNode.elem "w:noProof" [] [] true] false
              , XMLNode.elem "w:t" []
                  [XMLNode.text "Right-click to update field."] false ] false
          , XMLNode.elem "w:r" []
              [XMLNode.elem "w:fldChar" [("w:fldCharType", "end")] [] true] false ]
          false]) :=
  ⟨if t.title ≠ "" then [tocTitleParagraph t.title] else [], rfl⟩

/-- C10: the `TableOfContents` constructor and `configure` accept any
levels value without range validation — in particular a TOC with
`levels = 15`, outside `[1, 9]`, is constructed and its serialized field
instruction embeds the out-of-range range `1-15` — while the `setLevels`
setter alone rejects every value outside `[1, 9]` and accepts every value
inside it. -/
theorem toc_levels_unvalidated_except_setLevels :
    (∀ v : Int, v ≠ 0 → (TableOfContents.new { levels := some v }).levels = v) ∧
    (TableOfContents.new { levels := some 15 }).buildFieldInstruction
        = "TOC \\o \"1-15\" \\* MERGEFORMAT" ∧
    (∀ (t : TableOfContents) (v : Int),
        (t.configure { levels := some v }).levels = v) ∧
    (∀ (t : TableOfContents) (v : Int),
        ((v < 1 ∨ 9 < v) → ∃ e, t.setLevels v = .error e) ∧
        (1 ≤ v → v ≤ 9 → t.setLevels v = .ok { t with levels := v })) := by
  refine ⟨?_, ?_, ?_, ?_⟩
  · intro v hv
    simp [TableOfContents.new, orDefaultInt, hv]
  · rfl
  · intro t v
    simp [TableOfContents.configure]
  · intro t v
    constructor
    · intro hout
      refine ⟨"TOC levels must be between 1 and 9", ?_⟩
      unfold TableOfContents.setLevels
      rw [if_pos (by omega)]
    · intro h1 h9
      unfold TableOfContents.setLevels
      rw [if_neg (by omega)]

/-- Witness for C10 at concrete inputs: the constructor accepts 15, the
instruction serializes `1-15`, `configure` sets 15, `setLevels 15` throws
and `setLevels 9` succeeds. -/
theorem toc_levels_unvalidated_except_setLevels_witness :
    (TableOfContents.new { levels := some 15 }).levels = 15 ∧
    ((TableOfContents.new {}).configure { levels := some 15 }).levels = 15 ∧
    (∃ e, (TableOfContents.new {}).setLevels 15 = .error e) ∧
    (TableOfContents.new {}).setLevels 9
      = .ok { TableOfContents.new {} with levels := 9 } := by
  obtain ⟨h1, _, h3, h4⟩ := toc_levels_unvalidated_except_setLevels
  exact ⟨h1 15 (by decide), h3 _ 15,
    (h4 (TableOfContents.new {}) 15).1 (by norm_num),
    (h4 (TableOfContents.new {}) 9).2 (by norm_num) (by norm_num)⟩


/-- C1 counterexample: with the default manager, register a 100-byte image
object A under relationship key `rId1`, then register a different image
object B under the same key.  The second call returns the same filename
`image1.png`, but the image count changes from 1 to 2 — refuting the
claim that a repeated `registerImage` with the same key never changes the
image count. -/
theorem registerImage_rereg_count_counterexample :
    mapHas exMgr1.imagesByRelId "rId1" = true ∧
    (exMgr1.registerImage exImgB "rId1").1 = .ok "image1.png" ∧
    exMgr1.getImageCount = 1 ∧
    (exMgr1.registerImage exImgB "rId1").2.getImageCount = 2 :=
  ⟨rfl, rfl, rfl, rfl⟩

/-- C1 amended: re-registering any image object under an already
registered relationship key returns the filename stored for that key and
only aliases the object-identity map to the existing entry: no new entry
is created in the relationship index, no new filename number is minted,
and the image count is unchanged when the image object itself was already
tracked — but a fresh image object adds an aliasing binding, so the count
grows by one. -/
theorem registerImage_rereg_same_relId (m : ImageManager) (img : Image)
    (relId : String) (e : ImageEntry)
    (h : mapGet m.imagesByRelId relId = some e) :
    m.registerImage img relId
      = (.ok e.filename, { m with images := mapSet m.images img.imgId e }) ∧
    (m.registerImage img relId).2.nextImageNumber = m.nextImageNumber ∧
    (m.registerImage img relId).2.imagesByRelId = m.imagesByRelId ∧
    (mapHas m.images img.imgId = true →
      (m.registerImage img relId).2.getImageCount = m.getImageCount) ∧
    (mapHas m.images img.imgId = false →
      (m.registerImage img relId).2.getImageCount = m.getImageCount + 1) := by
  have hreg : m.registerImage img relId
      = (.ok e.filename, { m with images := mapSet m.images img.imgId e }) := by
    unfold ImageManager.registerImage
    rw [h]
  refine ⟨hreg, by rw [hreg], by rw [hreg], ?_, ?_⟩
  · intro hhas
    rw [hreg]
    unfold ImageManager.getImageCount
    exact length_mapSet_has m.images img.imgId e hhas
  · intro hnot
    rw [hreg]
    unfold ImageManager.getImageCount
    exact length_mapSet_not_has m.images img.imgId e hnot

/-- Witness for the amended C1: re-registering the fresh object `exImgB`
under `rId1` returns `image1.png`, keeps the relationship index and the
filename counter, and grows the image count by one. -/
theorem registerImage_rereg_same_relId_witness :
    (exMgr1.registerImage exImgB "rId1").1 = .ok "image1.png" ∧
    (exMgr1.registerImage exImgB "rId1").2.imagesByRelId = exMgr1.imagesByRelId ∧
    (exMgr1.registerImage exImgB "rId1").2.nextImageNumber = exMgr1.nextImageNumber ∧
    (exMgr1.registerImage exImgB "rId1").2.getImageCount = exMgr1.getImageCount + 1 := by
  have h := registerImage_rereg_same_relId exMgr1 exImgB "rId1"
    { image := exImgA, filename := "image1.png"
      relationshipId := "rId1", docPrId := 1 } rfl
  exact ⟨by rw [h.1], h.2.2.1, h.2.1, h.2.2.2.2 rfl⟩

/-- C5: registering an image whose loaded byte length exceeds the
configured single-image maximum under a fresh relationship key throws a
capacity error carrying remediation guidance, and the store is unchanged
(the post-state is the pre-state, so `getImageCount` is unchanged and the
image is not added). -/
theorem registerImage_oversize_rejected (m : ImageManager) (img : Image)
    (relId : String) (len : Nat)
    (hrel : mapGet m.imagesByRelId relId = none)
    (himg : mapGet m.images img.imgId = none)
    (hdata : img.dataLen = some len)
    (hbig : m.maxSingleImageSizeBytes < len) :
    ∃ e : RegisterError,
      m.registerImage img relId = (.error e, m) ∧ e.remediation ≠ [] := by
  unfold ImageManager.registerImage
  rw [hrel, himg]
  by_cases hc : m.images.length ≥ m.maxImageCount
  · rw [if_pos hc]
    exact ⟨.countExceeded m.maxImageCount, rfl, by simp [RegisterError.remediation]⟩
  · rw [if_neg hc]
    have hgd : img.getImageData = .ok len := by
      unfold Image.getImageData; rw [hdata]
    simp only [hgd, if_pos hbig]
    exact ⟨.singleSizeExceeded len m.maxSingleImageSizeBytes, rfl,
      by simp [RegisterError.remediation]⟩

/-- Witness for C5: a 21 MB image is rejected by the default manager
(20 MB single-image quota) with an unchanged store. -/
theorem registerImage_oversize_rejected_witness :
    ∃ e : RegisterError,
      ImageManager.new.registerImage exImgBig "rId9" = (.error e, ImageManager.new) ∧
      e.remediation ≠ [] :=
  registerImage_oversize_rejected ImageManager.new exImgBig "rId9"
    (21 * 1024 * 1024) rfl rfl rfl (by norm_num [ImageManager.new])


theorem foldl_mapDelete_key_eq_filter {K V A : Type} [DecidableEq K]
    (f : A → K) (xs : List A) (l : List (K × V)) :
    xs.foldl (fun acc x => mapDelete acc (f x)) l
      = l.filter (fun p => ¬ (xs.map f).contains p.1) := by
  induction xs generalizing l with
  | nil => simp
  | cons x xs ih =>
    simp only [List.foldl_cons]
    rw [ih]
    unfold mapDelete
    rw [List.filter_filter]
    apply List.filter_congr
    intro p _
    simp only [List.map_cons, List.contains_cons, List.elem_iff]
    rw [Bool.and_comm]
    simp [List.elem_iff]

theorem exists_mem_of_mapGet {K V : Type} [DecidableEq K] {l : List (K × V)}
    {k : K} {v : V} (h : mapGet l k = some v) : (k, v) ∈ l := by
  unfold mapGet at h
  obtain ⟨q, hq1, hq2⟩ := Option.map_eq_some'.mp h
  have hk := List.find?_some hq1
  simp only [decide_eq_true_eq] at hk
  have hmem := List.mem_of_find?_eq_some hq1
  have hq : q = (k, v) := Prod.ext hk hq2
  rwa [hq] at hmem

theorem mapHas_of_mapGet {K V : Type} [DecidableEq K] {l : List (K × V)}
    {k : K} {v : V} (h : mapGet l k = some v) : mapHas l k = true := by
  unfold mapHas
  simp only [List.any_eq_true, decide_eq_true_eq]
  exact ⟨(k, v), exists_mem_of_mapGet h, rfl⟩

/-- C8: `createReply` throws exactly when the parent id is unregistered
(leaving the state unchanged); when the parent exists the reply is
registered under the fresh id `nextId` (not previously in the store),
the counter advances, the reply is appended to the parent's reply list,
and the reply itself is stored with an empty reply list.  The hypothesis
`hkeys` is the manager's reachable-state invariant that every stored key
is below the `nextId` counter. -/
theorem createReply_parent_referential (m : CommentManager) (pid : Int)
    (author : String) (content : List String) (initials : String)
    (hkeys : ∀ p ∈ m.comments, p.1 < m.nextId) :
    (mapHas m.comments pid = false →
      ∃ e, m.createReply pid author content initials = (.error e, m)) ∧
    (∀ entry, mapGet m.comments pid = some entry →
      ∃ reply m',
        m.createReply pid author content initials = (.ok reply, m') ∧
        reply.id = m.nextId ∧
        reply.parentId = some pid ∧
        mapHas m.comments reply.id = false ∧
        m'.nextId = m.nextId + 1 ∧
        mapGet m'.comments pid =
          some { entry with replies := entry.replies ++ [reply] } ∧
        mapGet m'.comments reply.id = some { comment := reply, replies := [] }) := by
  constructor
  · intro habs
    refine ⟨"Cannot create reply: parent comment with ID " ++
            toString pid ++ " does not exist", ?_⟩
    unfold CommentManager.createReply
    rw [if_pos (by simp [habs])]
  · intro entry hget
    have hhas : mapHas m.comments pid = true := mapHas_of_mapGet hget
    have hpidlt : pid < m.nextId := hkeys (pid, entry) (exists_mem_of_mapGet hget)
    have hne : pid ≠ m.nextId := by omega
    set c' : Comment :=
      { id := m.nextId, author := author, initials := initials, date := 0
        runs := content, parentId := some pid } with hc'
    have hget1 :
        mapGet (mapSet m.comments m.nextId { comment := c', replies := [] }) pid
          = some entry := by
      rw [mapGet_mapSet_ne _ _ _ _ hne]; exact hget
    refine ⟨c',
      { comments := mapSet
          (mapSet m.comments m.nextId { comment := c', replies := [] }) pid
          { entry with replies := entry.replies ++ [c'] }
        nextId := m.nextId + 1 }, ?_, rfl, rfl, ?_, rfl, ?_, ?_⟩
    · unfold CommentManager.createReply
      rw [if_neg (by simp [hhas])]
      unfold CommentManager.register Comment.createReply
      simp only [hget1]
    · by_contra habs
      simp only [Bool.not_eq_false, mapHas, List.any_eq_true,
        decide_eq_true_eq] at habs
      obtain ⟨q, hq, hqk⟩ := habs
      have := hkeys q hq
      omega
    · exact mapGet_mapSet_self _ _ _
    · rw [mapGet_mapSet_ne _ _ _ _ (by omega : (m.nextId : Int) ≠ pid)]
      exact mapGet_mapSet_self _ _ _

/-- Witness for C8: with one registered comment (id 0, nextId 1), replying
to the missing id 5 throws and leaves the state unchanged, while replying
to id 0 succeeds with fresh id 1 and counter 2. -/
theorem createReply_parent_referential_witness :
    (∃ e, exCommentMgr.createReply 5 "bob" ["re"] "b" = (.error e, exCommentMgr)) ∧
    (∃ reply m', exCommentMgr.createReply 0 "bob" ["re"] "b" = (.ok reply, m') ∧
       reply.id = 1 ∧ m'.nextId = 2) := by
  have h5 := createReply_parent_referential exCommentMgr 5 "bob" ["re"] "b" (by decide)
  have h0 := createReply_parent_referential exCommentMgr 0 "bob" ["re"] "b" (by decide)
  refine ⟨h5.1 (by decide), ?_⟩
  obtain ⟨reply, m', h1, h2, _, _, h4, _, _⟩ :=
    h0.2 { comment := { id := 0, author := "alice", initials := "a", date := 5
                        runs := ["hello"], parentId := none }
           replies := [] } rfl
  exact ⟨reply, m', h1, h2.trans rfl, h4.trans rfl⟩

/-- C9: `removeComment` on a registered id deletes the comment and exactly
its replies (everything else is untouched) and returns `true`; on an
unregistered id it returns `false` and leaves the store unchanged.  The
hypothesis on the entry's replies is the reachable-state invariant that a
reply never carries its parent's id. -/
theorem removeComment_cascade (m : CommentManager) (id : Int) :
    (mapGet m.comments id = none → m.removeComment id = (false, m)) ∧
    (∀ entry, mapGet m.comments id = some entry →
      (∀ r ∈ entry.replies, r.id ≠ id) →
      m.removeComment id =
        (true,
         { m with comments :=
            m.comments.filter (fun p =>
              ¬ (p.1 = id ∨ (entry.replies.map (fun r => r.id)).contains p.1)) })) := by
  constructor
  · intro h
    unfold CommentManager.removeComment
    rw [h]
  · intro entry hget hrep
    unfold CommentManager.removeComment
    simp only [hget]
    have hfold : entry.replies.foldl (fun acc r => mapDelete acc r.id) m.comments
        = m.comments.filter
            (fun p => ¬ (entry.replies.map (fun r => r.id)).contains p.1) :=
      foldl_mapDelete_key_eq_filter (fun r => r.id) entry.replies m.comments
    rw [hfold]
    have hmem : (id, entry) ∈ m.comments := exists_mem_of_mapGet hget
    have hsurv : (id, entry) ∈ m.comments.filter
        (fun p => ¬ (entry.replies.map (fun r => r.id)).contains p.1) := by
      rw [List.mem_filter]
      refine ⟨hmem, ?_⟩
      have hid : id ∉ entry.replies.map (fun r => r.id) := by
        intro hmm
        obtain ⟨r, hr, hrid⟩ := List.mem_map.mp hmm
        exact hrep r hr hrid
      simp [List.elem_iff, hid]
    have hhas1 : mapHas (m.comments.filter
        (fun p => ¬ (entry.replies.map (fun r => r.id)).contains p.1)) id = true := by
      unfold mapHas
      simp only [List.any_eq_true, decide_eq_true_eq]
      exact ⟨(id, entry), hsurv, rfl⟩
    rw [hhas1]
    have hdel : mapDelete (m.comments.filter
        (fun p => ¬ (entry.replies.map (fun r => r.id)).contains p.1)) id
        = m.comments.filter (fun p =>
            ¬ (p.1 = id ∨ (entry.replies.map (fun r => r.id)).contains p.1)) := by
      unfold mapDelete
      rw [List.filter_filter]
      apply List.filter_congr
      intro p _
      simp only [decide_eq_true_eq, List.elem_iff, decide_not]
      cases hc : decide (p.1 = id) <;> cases hd : decide (p.1 ∈ entry.replies.map (fun r => r.id)) <;>
        simp_all
    rw [hdel]

/-- Witness for C9: removing the registered id 0 empties the example store
and returns `true`; removing the unknown id 7 returns `false` and leaves
the store unchanged. -/
theorem removeComment_cascade_witness :
    exCommentMgr.removeComment 0 = (true, { exCommentMgr with comments := [] }) ∧
    exCommentMgr.removeComment 7 = (false, exCommentMgr) := by
  have h := removeComment_cascade exCommentMgr 0
  have h7 := removeComment_cascade exCommentMgr 7
  refine ⟨?_, h7.1 rfl⟩
  have h0 := h.2 { comment := { id := 0, author := "alice", initials := "a", date := 5
                                runs := ["hello"], parentId := none }
                   replies := [] } rfl (by simp)
  rw [h0]
  rfl


theorem filter_not_contains_removalKeys {K V : Type} [DecidableEq K]
    (l : List (K × V)) (Q : K → Bool) :
    l.filter (fun p => ¬ ((l.filter (fun q => ¬ Q q.1)).map (·.1)).contains p.1)
      = l.filter (fun p => Q p.1) := by
  apply List.filter_congr
  intro p hp
  by_cases hq : Q p.1 = true
  · have hnm : p.1 ∉ (l.filter (fun q => ¬ Q q.1)).map (·.1) := by
      intro hmm
      obtain ⟨q, hqq, hqe⟩ := List.mem_map.mp hmm
      have hqf := (List.mem_filter.mp hqq).2
      simp only [decide_eq_true_eq, Bool.not_eq_true] at hqf
      rw [hqe] at hqf
      exact absurd hq (by simp [hqf])
    have hcb : ((l.filter (fun q => ¬ Q q.1)).map (·.1)).contains p.1 = false := by
      by_contra hcb
      rw [Bool.not_eq_false, List.elem_iff] at hcb
      exact hnm hcb
    simp [hcb, hq]
  · have hmm : p.1 ∈ (l.filter (fun q => ¬ Q q.1)).map (·.1) :=
      List.mem_map.mpr ⟨p, List.mem_filter.mpr ⟨hp, by simp [hq]⟩, rfl⟩
    have hcb : ((l.filter (fun q => ¬ Q q.1)).map (·.1)).contains p.1 = true := by
      rw [List.elem_iff]; exact hmm
    rw [Bool.not_eq_true] at hq
    rw [hcb, hq]
    simp

theorem mapHas_mapDelete_ne {K V : Type} [DecidableEq K] (l : List (K × V))
    (k k' : K) (hk : k' ≠ k) :
    mapHas (mapDelete l k) k' = mapHas l k' := by
  unfold mapHas mapDelete
  cases hb : l.any (fun p => p.1 = k') with
  | false =>
    refine List.any_eq_false.mpr ?_
    intro p hp
    exact List.any_eq_false.mp hb p (List.mem_filter.mp hp).1
  | true =>
    refine List.any_eq_true.mpr ?_
    obtain ⟨p, hp, hpk⟩ := List.any_eq_true.mp hb
    simp only [decide_eq_true_eq] at hpk
    refine ⟨p, List.mem_filter.mpr ⟨hp, ?_⟩, by simp [hpk]⟩
    simp only [decide_eq_true_eq, hpk, ne_eq, decide_not]
    simp only [Bool.not_eq_true', decide_eq_false_iff_not]
    exact hk

/-- C3: `cleanupUnusedNumbering(usedNumIds)` removes exactly the instances
whose `numId` is not in the used set, then exactly the abstract
definitions not referenced by any surviving instance; the surviving
entries and both id counters are untouched, and the returned counts are
exactly the numbers of removed instances and definitions. -/
theorem cleanupUnusedNumbering_exact (m : NumberingManager)
    (usedNumIds : List Int) :
    (m.cleanupUnusedNumbering usedNumIds).2.instances
        = m.instances.filter (fun p => usedNumIds.contains p.1) ∧
    (m.cleanupUnusedNumbering usedNumIds).2.abstractNumberings
        = m.abstractNumberings.filter (fun p =>
            (((m.cleanupUnusedNumbering usedNumIds).2.instances).map
              (fun q => q.2.abstractNumId)).contains p.1) ∧
    (m.cleanupUnusedNumbering usedNumIds).1.instancesRemoved
        = (m.instances.filter (fun p => ¬ usedNumIds.contains p.1)).length ∧
    (m.cleanupUnusedNumbering usedNumIds).1.abstractsRemoved
        = (m.abstractNumberings.filter (fun p =>
            ¬ (((m.cleanupUnusedNumbering usedNumIds).2.instances).map
              (fun q => q.2.abstractNumId)).contains p.1)).length ∧
    (m.cleanupUnusedNumbering usedNumIds).2.nextAbstractNumId
        = m.nextAbstractNumId ∧
    (m.cleanupUnusedNumbering usedNumIds).2.nextNumId = m.nextNumId := by
  have hinst :
      ((m.instances.filter (fun p => ¬ usedNumIds.contains p.1)).map
          (·.1)).foldl mapDelete m.instances
        = m.instances.filter (fun p => usedNumIds.contains p.1) := by
    rw [foldl_mapDelete_eq_filter]
    exact filter_not_contains_removalKeys m.instances
      (fun k => usedNumIds.contains k)
  unfold NumberingManager.cleanupUnusedNumbering
  simp only [hinst]
  have habs (keep : List (Int × NumberingInstance)) :
      ((m.abstractNumberings.filter (fun p =>
          ¬ (keep.map (fun q => q.2.abstractNumId)).contains p.1)).map
        (·.1)).foldl mapDelete m.abstractNumberings
      = m.abstractNumberings.filter (fun p =>
          (keep.map (fun q => q.2.abstractNumId)).contains p.1) := by
    rw [foldl_mapDelete_eq_filter]
    exact filter_not_contains_removalKeys m.abstractNumberings
      (fun k => (keep.map (fun q => q.2.abstractNumId)).contains k)
  simp only [habs]
  simp [List.length_map]

/-- C4: `addInstance` fails exactly when the referenced abstract
definition is absent and otherwise preserves the referential invariant,
and `removeAbstractNumbering` cascades: it removes exactly the instances
referencing the removed definition, deletes only that definition, and
preserves the referential invariant.  `hinv` is the store invariant that
every registered instance references an existing definition, `hnd` the
uniqueness of the instance keys (both hold in every reachable state). -/
theorem numbering_reference_invariant (m : NumberingManager)
    (inst : NumberingInstance) (aid : Int)
    (hinv : checkNumberingInv m = true)
    (hnd : (m.instances.map (fun p => p.1)).Nodup) :
    ((m.hasAbstractNumbering inst.abstractNumId = false →
        ∃ e, m.addInstance inst = .error e) ∧
     (m.hasAbstractNumbering inst.abstractNumId = true →
        ∃ m', m.addInstance inst = .ok m' ∧ checkNumberingInv m' = true)) ∧
    ((m.removeAbstractNumbering aid).2.instances
        = m.instances.filter (fun p => ¬ p.2.abstractNumId = aid) ∧
     (m.removeAbstractNumbering aid).2.abstractNumberings
        = mapDelete m.abstractNumberings aid ∧
     checkNumberingInv (m.removeAbstractNumbering aid).2 = true) := by
  have hrem : (m.removeAbstractNumbering aid).2.instances
      = m.instances.filter (fun p => ¬ p.2.abstractNumId = aid) := by
    unfold NumberingManager.removeAbstractNumbering
    simp only []
    rw [foldl_mapDelete_eq_filter]
    apply List.filter_congr
    intro p hp
    by_cases hq : p.2.abstractNumId = aid
    · have hmm : p.1 ∈ (m.instances.filter
          (fun q => q.2.abstractNumId = aid)).map (·.1) :=
        List.mem_map.mpr ⟨p, List.mem_filter.mpr ⟨hp, by simp [hq]⟩, rfl⟩
      simp [List.elem_iff, hmm, hq]
    · have hnm : p.1 ∉ (m.instances.filter
          (fun q => q.2.abstractNumId = aid)).map (·.1) := by
        intro hmm
        obtain ⟨q, hqq, hqe⟩ := List.mem_map.mp hmm
        obtain ⟨hql, hqf⟩ := List.mem_filter.mp hqq
        simp only [decide_eq_true_eq] at hqf
        have : q = p := List.inj_on_of_nodup_map hnd hql hp hqe
        exact hq (this ▸ hqf)
      simp [List.elem_iff, hnm, hq]
  refine ⟨⟨?_, ?_⟩, hrem, rfl, ?_⟩
  · intro habs
    refine ⟨"Abstract numbering " ++ toString inst.abstractNumId ++
            " does not exist", ?_⟩
    unfold NumberingManager.addInstance
    rw [if_pos (by simp [habs])]
  · intro hhas
    refine ⟨{ m with
        instances := mapSet m.instances inst.numId inst
        nextNumId :=
          if inst.numId ≥ m.nextNumId then inst.numId + 1
          else m.nextNumId }, ?_, ?_⟩
    · unfold NumberingManager.addInstance
      rw [if_neg (by simp [hhas])]
    · unfold checkNumberingInv at hinv ⊢
      simp only [List.all_eq_true] at hinv ⊢
      intro p hp
      rcases mem_mapSet hp with h1 | h1
      · exact hinv p h1
      · subst h1
        simpa using hhas
  · unfold checkNumberingInv
    simp only [List.all_eq_true]
    intro p hp
    rw [hrem] at hp
    obtain ⟨hpl, hpf⟩ := List.mem_filter.mp hp
    simp only [decide_eq_true_eq] at hpf
    have hne : p.2.abstractNumId ≠ aid := by simpa using hpf
    unfold checkNumberingInv at hinv
    simp only [List.all_eq_true] at hinv
    have hbase := hinv p hpl
    have : (m.removeAbstractNumbering aid).2.abstractNumberings
        = mapDelete m.abstractNumberings aid := rfl
    rw [this, mapHas_mapDelete_ne _ _ _ hne]
    exact hbase

/-- Witness for C4: on the example manager (one definition id 0, two
instances referencing it), adding an instance referencing the missing
definition 77 throws, adding one referencing 0 succeeds preserving the
invariant, and removing definition 0 cascades to remove both instances
while preserving the invariant. -/
theorem numbering_reference_invariant_witness :
    (∃ e, exNumMgr.addInstance
        { numId := 5, abstractNumId := 77, levelOverrides := [] } = .error e) ∧
    (∃ m', exNumMgr.addInstance
        { numId := 5, abstractNumId := 0, levelOverrides := [] } = .ok m' ∧
        checkNumberingInv m' = true) ∧
    (exNumMgr.removeAbstractNumbering 0).2.instances = [] ∧
    checkNumberingInv (exNumMgr.removeAbstractNumbering 0).2 = true := by
  have h1 := numbering_reference_invariant exNumMgr
    { numId := 5, abstractNumId := 77, levelOverrides := [] } 0
    (by decide) (by decide)
  have h2 := numbering_reference_invariant exNumMgr
    { numId := 5, abstractNumId := 0, levelOverrides := [] } 0
    (by decide) (by decide)
  refine ⟨h1.1.1 (by decide), h2.1.2 (by decide), ?_, h2.2.2.2⟩
  rw [h2.2.1]
  rfl


theorem normalizeLevels_ok (levels : List NumberingLevel)
    (h : ∀ lv ∈ levels, 0 ≤ lv.level ∧ lv.level ≤ 8) :
    normalizeLevels levels = .ok (levels.map standardizeLevel) := by
  induction levels with
  | nil => rfl
  | cons lv rest ih =>
    obtain ⟨h0, h8⟩ := h lv (List.mem_cons_self _ _)
    have hstd : NumberingManager.getStandardIndentation lv.level
        = .ok (720 * (lv.level + 1), 360) := by
      unfold NumberingManager.getStandardIndentation
      rw [if_neg (by omega)]
    have hnn : (0 : Int) ≤ 720 * (lv.level + 1) := by nlinarith
    have hleft : lv.setLeftIndent (720 * (lv.level + 1))
        = .ok { lv with leftIndent := 720 * (lv.level + 1) } := by
      unfold NumberingLevel.setLeftIndent
      rw [if_neg (not_lt.mpr hnn)]
    have hhang :
        ({ lv with leftIndent := 720 * (lv.level + 1) } : NumberingLevel).setHangingIndent 360
            = .ok (standardizeLevel lv) := by
      unfold NumberingLevel.setHangingIndent standardizeLevel
      rw [if_neg (by norm_num)]
    have ihh := ih (fun x hx => h x (List.mem_cons_of_mem _ hx))
    unfold normalizeLevels
    rw [hstd]
    simp only [hleft, hhang, ihh, List.map_cons]

/-- C7: `getStandardIndentation` returns left indent `720 * (L + 1)` and
hanging indent `360` twips for every level `L` in `[0, 8]` and throws for
every `L` outside it; `normalizeListIndentation(numId)` rewrites every
level of the abstract definition referenced by the instance `numId` to
exactly those standard values, whatever the levels' prior indents were,
leaving everything else in the manager unchanged. -/
theorem standard_indentation_normalize (L : Int) (m : NumberingManager)
    (numId : Int) :
    (0 ≤ L → L ≤ 8 →
      NumberingManager.getStandardIndentation L = .ok (720 * (L + 1), 360)) ∧
    ((L < 0 ∨ 8 < L) →
      ∃ e, NumberingManager.getStandardIndentation L = .error e) ∧
    (∀ inst a,
      m.getInstance numId = some inst →
      m.getAbstractNumbering inst.abstractNumId = some a →
      (∀ lv ∈ a.levels, 0 ≤ lv.level ∧ lv.level ≤ 8) →
      m.normalizeListIndentation numId =
        .ok (true,
          { m with abstractNumberings :=
              (mapSet m.abstractNumberings inst.abstractNumId
                { a with levels := a.levels.map standardizeLevel }) })) := by
  refine ⟨?_, ?_, ?_⟩
  · intro h0 h8
    unfold NumberingManager.getStandardIndentation
    rw [if_neg (by omega)]
  · intro hout
    refine ⟨"Invalid level " ++ toString L ++
            ". Level must be between 0 and 8.", ?_⟩
    unfold NumberingManager.getStandardIndentation
    rw [if_pos (by omega)]
  · intro inst a hinst habs hlv
    unfold NumberingManager.normalizeListIndentation
    simp only [hinst, habs, normalizeLevels_ok a.levels hlv]

/-- Witness for C7: level 3 maps to `(2880, 360)`, level 9 throws, and
normalizing the example manager's list 1 rewrites both mutated levels to
the standard indents. -/
theorem standard_indentation_normalize_witness :
    NumberingManager.getStandardIndentation 3 = .ok (2880, 360) ∧
    (∃ e, NumberingManager.getStandardIndentation 9 = .error e) ∧
    exNumMgr.normalizeListIndentation 1 =
      .ok (true,
        { exNumMgr with abstractNumberings :=
            (mapSet exNumMgr.abstractNumberings 0
              { exAbstract with levels :=
                  [{ exLevel 0 with leftIndent := 720, hangingIndent := 360 },
                   { exLevel 1 with leftIndent := 1440, hangingIndent := 360 }] }) }) := by
  have h3 := standard_indentation_normalize 3 exNumMgr 1
  have h9 := standard_indentation_normalize 9 exNumMgr 1
  refine ⟨?_, h9.2.1 (by norm_num), ?_⟩
  · have hv := h3.1 (by norm_num) (by norm_num)
    norm_num at hv
    exact hv
  · have hn := h3.2.2 { numId := 1, abstractNumId := 0, levelOverrides := [] }
      exAbstract rfl rfl (by decide)
    rw [hn]
    rfl


theorem processEntry_eq (total : Nat) (st : Nat × List (Nat × Nat))
    (e : ImageEntry) :
    processEntry total st e = (st.1 + 1, st.2 ++ [(st.1 + 1, total)]) := by
  unfold processEntry
  exact ite_self _

theorem foldl_processEntry (total : Nat) (batch : List ImageEntry) :
    ∀ (loaded : Nat) (acc : List (Nat × Nat)),
    batch.foldl (processEntry total) (loaded, acc)
      = (loaded + batch.length,
         acc ++ (List.range batch.length).map (fun j => (loaded + 1 + j, total))) := by
  induction batch with
  | nil => intro loaded acc; simp
  | cons e rest ih =>
    intro loaded acc
    rw [List.foldl_cons, processEntry_eq, ih]
    refine Prod.ext (by simp; omega) ?_
    simp only [List.length_cons]
    rw [List.range_succ_eq_map (rest.length), List.map_cons, List.map_map,
      List.append_assoc, List.singleton_append]
    congr 1
    congr 1
    apply List.map_congr_left
    intro j hj
    refine Prod.ext ?_ rfl
    simp [Function.comp]
    omega

theorem loadLoop_exit (entries : List ImageEntry) (c total fuel i : Nat)
    (st : Nat × List (Nat × Nat)) (h : ¬ i < total) :
    loadLoop entries c total fuel i st = st := by
  cases fuel with
  | zero => rfl
  | succ f => unfold loadLoop; rw [if_neg h]

theorem loadLoop_spec (entries : List ImageEntry) (c total : Nat)
    (hc : 1 ≤ c) (hlen : entries.length = total) :
    ∀ (fuel i : Nat) (acc : List (Nat × Nat)), i ≤ total → total - i ≤ fuel →
    loadLoop entries c total fuel i (i, acc)
      = (total, acc ++ (List.range (total - i)).map (fun j => (i + 1 + j, total))) := by
  intro fuel
  induction fuel with
  | zero =>
    intro i acc hi hf
    have hit : i = total := by omega
    subst hit
    simp [loadLoop, Nat.sub_self]
  | succ f ih =>
    intro i acc hi hf
    by_cases hlt : i < total
    · unfold loadLoop
      rw [if_pos hlt]
      have hbatch : ((entries.drop i).take c).length = min c (total - i) := by
        simp [List.length_take, List.length_drop, hlen]
      rw [foldl_processEntry, hbatch]
      by_cases hcle : c ≤ total - i
      · have hmin : min c (total - i) = c := Nat.min_eq_left hcle
        rw [hmin]
        have hrec := ih (i + c)
          (acc ++ (List.range c).map (fun j => (i + 1 + j, total)))
          (by omega) (by omega)
        rw [hrec]
        refine Prod.ext rfl ?_
        simp only [List.append_assoc]
        congr 1
        have hsplit : total - i = c + (total - (i + c)) := by omega
        rw [hsplit, List.range_add, List.map_append, List.map_map]
        congr 1
        apply List.map_congr_left
        intro j hj
        refine Prod.ext ?_ rfl
        simp [Function.comp]
        omega
      · have hmin : min c (total - i) = total - i := by omega
        rw [hmin]
        rw [loadLoop_exit _ _ _ _ _ _ (by omega : ¬ i + c < total)]
        exact Prod.ext (by omega) rfl
    · have hit : i = total := by omega
      subst hit
      rw [loadLoop_exit _ _ _ _ _ _ hlt]
      simp [Nat.sub_self]

/-- C6: with a valid integer concurrency in `[1, 50]` and `n > 0`
registered images, `loadAllImageData` reports exactly the progress
sequence `[(1, n), …, (n, n)]` — the loaded values are strictly
increasing and end at `n`, every asset (even one whose load throws) being
counted — while with `n > 0` and a concurrency outside `[1, 50]` the call
fails.  The last two conjuncts spell out that the reported sequence is
strictly increasing in its loaded component and ends at `(n, n)`. -/
theorem loadAllImageData_progress (m : ImageManager) (c : Int) :
    (1 ≤ c → c ≤ 50 → 0 < m.images.length →
      m.loadAllImageData c = .ok (progressSeq m.images.length)) ∧
    ((c < 1 ∨ 50 < c) → 0 < m.images.length →
      ∃ e, m.loadAllImageData c = .error e) ∧
    List.Pairwise (fun a b => a.1 < b.1) (progressSeq m.images.length) ∧
    (0 < m.images.length →
      (progressSeq m.images.length).getLast?
        = some (m.images.length, m.images.length)) := by
  refine ⟨?_, ?_, ?_, ?_⟩
  · intro h1 h50 hn
    have hA : ¬ ((m.images.map (·.2)).length = 0) := by
      rw [List.length_map]; omega
    have hB : ¬ (c < 1 ∨ c > 50) := by omega
    unfold ImageManager.loadAllImageData
    rw [if_neg hA, if_neg hB]
    have hc1 : 1 ≤ c.toNat := by omega
    rw [loadLoop_spec (m.images.map (·.2)) c.toNat (m.images.map (·.2)).length
      hc1 rfl (m.images.map (·.2)).length 0 [] (by omega) (by omega)]
    simp only [List.nil_append, Nat.sub_zero, List.length_map]
    unfold progressSeq
    congr 1
    apply List.map_congr_left
    intro j hj
    exact Prod.ext (by omega) rfl
  · intro hout hn
    have hA : ¬ ((m.images.map (·.2)).length = 0) := by
      rw [List.length_map]; omega
    unfold ImageManager.loadAllImageData
    rw [if_neg hA, if_pos (by omega)]
    exact ⟨_, rfl⟩
  · unfold progressSeq
    rw [List.pairwise_map]
    exact (List.pairwise_lt_range _).imp (fun h => by omega)
  · intro hn
    obtain ⟨k, hk⟩ := Nat.exists_eq_succ_of_ne_zero (by omega : m.images.length ≠ 0)
    rw [hk]
    unfold progressSeq
    rw [List.range_succ k, List.map_append]
    simp [List.getLast?_concat]

/-- Witness for C6: the example manager with 7 registered unloaded images
(one of which fails to load) reports `[(1,7), …, (7,7)]` under
concurrency 3, and fails under concurrency 0. -/
theorem loadAllImageData_progress_witness :
    exMgr7.loadAllImageData 3
      = .ok [(1, 7), (2, 7), (3, 7), (4, 7), (5, 7), (6, 7), (7, 7)] ∧
    (∃ e, exMgr7.loadAllImageData 0 = .error e) := by
  have h := loadAllImageData_progress exMgr7 3
  have h0 := loadAllImageData_progress exMgr7 0
  constructor
  · have := h.1 (by norm_num) (by norm_num) (by decide)
    rw [this]
    rfl
  · exact h0.2.1 (by norm_num) (by decide)

end DocXML
